import Mathlib

/-!
Shallow embedding of the pricing and aggregation core of the
cmc-patagonia-order repository (src/lib/pricing.js and the per-customer
totals loop of the invoice generator), together with proofs of the
specification's claims about it.

Modelling conventions:
* JavaScript objects used as string-keyed maps become ordered association
  lists `List (String × _)`; insertion order is preserved, as JS does for
  non-numeric keys.
* JavaScript numbers become `ℚ`.  Arithmetic involving a possibly
  `undefined` operand (which yields `NaN` in JS) is modelled by
  `Option ℚ` with `none` standing for `NaN`/undefined, propagated by
  `jsAdd`.
* Fields that may be absent from a row object are `Option String`.
-/

namespace Patagonia

/-- First-match association-list lookup, the model of `obj[key]` on a
JS object with string keys (`none` = `undefined`). -/
def lookupKey {β : Type} (k : String) : List (String × β) → Option β
  | [] => none
  | (k', v) :: rest => if k' = k then some v else lookupKey k rest

/-- Pricing tier entry, from `pricing.json`'s `tiers` array:
`{minQty, label}`, sorted descending by `minQty`. -/
structure Tier where
  minQty : Nat
  label : String
deriving DecidableEq, Repr

/-- Source `const GRAY_COLORS = ["Birch White", "Stonewash"]` — colors that
normalize to "Gray" for pricing purposes. -/
def GRAY_COLORS : List String := ["Birch White", "Stonewash"]

/-- Source `normalizeColor(color)`: member of `GRAY_COLORS` ↦ `"Gray"`,
otherwise unchanged. -/
def normalizeColor (color : String) : String :=
  if color ∈ GRAY_COLORS then "Gray" else color

/-- One order row from the sheet/CSV.  `Email`, `EmbroideredName`
(JS field "Embroidered Name") and `ThreadColor` (JS field
"Thread Color") may be absent. -/
structure Row where
  Name : String
  Phone : String
  Email : Option String
  Product : String
  Style : String
  Size : String
  Color : String
  Logo : String
  EmbroideredName : Option String
  ThreadColor : Option String
deriving DecidableEq, Repr

/-- The serialized ProductColorKey `"<product>|<normalized color>"`. -/
def productColorKey (product color : String) : String :=
  product ++ "|" ++ normalizeColor color

/-- One step of the `countByProductColor` loop:
`counts[key] = (counts[key] || 0) + 1`, preserving insertion order. -/
def bump (counts : List (String × Nat)) (key : String) : List (String × Nat) :=
  match lookupKey key counts with
  | some _ => counts.map (fun p => if p.1 = key then (p.1, p.2 + 1) else p)
  | none => counts ++ [(key, 1)]

/-- Source `countByProductColor(rows)`: counts rows keyed by
`"Product|normalizedColor"`, skipping rows with a falsy (empty)
product. -/
def countByProductColor (rows : List Row) : List (String × Nat) :=
  rows.foldl
    (fun counts row =>
      if row.Product = "" then counts
      else bump counts (productColorKey row.Product row.Color))
    []

/-- The `for (const tier of tiers) if (qty >= tier.minQty) return ...`
walk of `getPricingTier`: the first tier whose `minQty` is ≤ `qty`. -/
def firstMatch (qty : Nat) : List Tier → Option Nat
  | [] => none
  | t :: ts => if t.minQty ≤ qty then some t.minQty else firstMatch qty ts

/-- Source `getPricingTier(qty, tiers)` (numeric part): first tier in order with
`minQty ≤ qty`, else the last tier of the list
(`tiers[tiers.length - 1]`); `none` models the crash on an empty list.
The source returns `minQty.toString()`; see `getPricingTierKey`. -/
def getPricingTier (qty : Nat) (tiers : List Tier) : Option Nat :=
  match firstMatch qty tiers with
  | some k => some k
  | none => tiers.getLast?.map fun t => t.minQty

/-- The string tier key actually returned by the source:
`tier.minQty.toString()`. -/
def getPricingTierKey (qty : Nat) (tiers : List Tier) : Option String :=
  (getPricingTier qty tiers).map fun n => toString n

/-- Source `buildTierMap(productColorCounts, tiers)`: resolves a tier key per
entry; `none` models the crash `getPricingTier` would raise (empty tier
list). -/
def buildTierMap : List (String × Nat) → List Tier → Option (List (String × String))
  | [], _ => some []
  | kv :: rest, tiers =>
    match getPricingTierKey kv.2 tiers, buildTierMap rest tiers with
    | some s, some m => some ((kv.1, s) :: m)
    | _, _ => none

/-- The floor tier key of a descending-sorted tier list: the identifier
(`minQty.toString()`) of its last entry, the tier with the smallest
`minQty`. -/
def floorTierKey (tiers : List Tier) : Option String :=
  tiers.getLast?.map fun t => toString t.minQty

/-- JS addition where either operand may be `undefined`/`NaN`
(`none`). -/
def jsAdd : Option ℚ → Option ℚ → Option ℚ
  | some a, some b => some (a + b)
  | _, _ => none

/-- JS `x || 0` on a config field that may be absent: `undefined ↦ 0`,
and `0 ↦ 0` (falsy), i.e. `Option.getD · 0`. -/
def jsOrZero : Option ℚ → ℚ
  | some x => x
  | none => 0

/-- The pricing configuration (`pricing.json`): tier list, per-product
price tables keyed by tier key, flat fees, tax rate, currency.
`logoFee` and `foldingFee` are read with `|| 0` in the source, so they
may be absent. -/
structure PricingConfig where
  tiers : List Tier
  products : List (String × List (String × ℚ))
  embroideryFee : ℚ
  logoFee : Option ℚ
  foldingFee : Option ℚ
  taxRate : ℚ
  currency : String

/-- A customer line item as built by `groupByEmail`. -/
structure Item where
  product : String
  style : String
  size : String
  color : String
  logo : String
  embroideredName : String
  threadColor : String
deriving DecidableEq, Repr

/-- Source `tierMap[key] || "6"`: the tier key an item resolves to — the
tier-map entry for its ProductColorKey when that entry is truthy,
otherwise the literal string `"6"`. -/
def resolvedTierKey (item : Item) (tierMap : List (String × String)) : String :=
  match lookupKey (productColorKey item.product item.color) tierMap with
  | some s => if s = "" then "6" else s
  | none => "6"

/-- Result of `getItemPrice`: `price` is a JS number (`none` = `NaN`,
arising from an undefined base price), `tierKey` the resolved tier
key. -/
structure PriceResult where
  price : Option ℚ
  tierKey : String
deriving DecidableEq, Repr

/-- Source `getItemPrice(item, tierMap, pricing)`: `null` (`none`) when the
product has no price table; otherwise base price at the resolved tier
key (an unguarded lookup) plus embroidery fee when `item.embroideredName`
is truthy, plus `logoFee || 0` plus `foldingFee || 0`. -/
def getItemPrice (item : Item) (tierMap : List (String × String))
    (pricing : PricingConfig) : Option PriceResult :=
  match lookupKey item.product pricing.products with
  | none => none
  | some productPricing =>
    let tierKey := resolvedTierKey item tierMap
    let basePrice := lookupKey tierKey productPricing
    let embroideryFee : ℚ := if item.embroideredName ≠ "" then pricing.embroideryFee else 0
    let logoFee := jsOrZero pricing.logoFee
    let foldingFee := jsOrZero pricing.foldingFee
    some { price := jsAdd (jsAdd (jsAdd basePrice (some embroideryFee)) (some logoFee))
                      (some foldingFee),
           tierKey := tierKey }

/-- A grouped customer record. -/
structure Customer where
  name : String
  phone : String
  email : String
  items : List Item
deriving DecidableEq, Repr

/-- Source `row.Email?.toLowerCase()` followed by the falsy check: the grouping
key, `none` when the row has no usable email. -/
def emailKey (row : Row) : Option String :=
  match row.Email with
  | none => none
  | some e => if e.toLower = "" then none else some e.toLower

/-- The item pushed for a row: `row["Embroidered Name"] || ""` and
`row["Thread Color"] || ""` default to the empty string. -/
def rowItem (row : Row) : Item :=
  { product := row.Product, style := row.Style, size := row.Size,
    color := row.Color, logo := row.Logo,
    embroideredName := row.EmbroideredName.getD "",
    threadColor := row.ThreadColor.getD "" }

/-- One iteration of the `groupByEmail` loop over the accumulated
email-keyed object: create the customer on first sight of an email,
otherwise only push the item. -/
def addRow (grouped : List (String × Customer)) (row : Row) :
    List (String × Customer) :=
  match emailKey row with
  | none => grouped
  | some email =>
    match lookupKey email grouped with
    | some _ =>
      grouped.map fun p =>
        if p.1 = email then
          (p.1, { name := p.2.name, phone := p.2.phone, email := p.2.email,
                  items := p.2.items ++ [rowItem row] })
        else p
    | none =>
      grouped ++
        [(email, { name := row.Name, phone := row.Phone, email := email,
                   items := [rowItem row] })]

/-- Source `groupByEmail(rows)`: `Object.values` of the accumulated object, in
first-seen order. -/
def groupByEmail (rows : List Row) : List Customer :=
  (rows.foldl addRow []).map Prod.snd

/-- Source `filterByMinimum(productColorCounts, minQuantity)`: strict partition
into (eligible, excluded) by `count >= minQuantity`. -/
def filterByMinimum : List (String × Nat) → Nat →
    List (String × Nat) × List (String × Nat)
  | [], _ => ([], [])
  | kv :: rest, minQuantity =>
    let r := filterByMinimum rest minQuantity
    if minQuantity ≤ kv.2 then (kv :: r.1, r.2) else (r.1, kv :: r.2)

/-- Source `calculateTax(subtotal, taxRate) = subtotal * taxRate`. -/
def calculateTax (subtotal taxRate : ℚ) : ℚ := subtotal * taxRate

/-- Source `calculateStripeFee(subtotal) = subtotal * 0.029 + 0.30`. -/
def calculateStripeFee (subtotal : ℚ) : ℚ := subtotal * (29 / 1000) + 3 / 10

/-- The count the main loop's eligibility test reads:
`eligibleCombos[comboKey]`, with `undefined ↦ 0` so that the JS falsy
test `!eligibleCombos[comboKey]` is `= 0` here. -/
def comboCount (eligibleCombos : List (String × Nat)) (item : Item) : Nat :=
  (lookupKey (productColorKey item.product item.color) eligibleCombos).getD 0

/-- One iteration of the per-customer item loop of the invoice
generator's `main`: skip an item whose combo is not (truthily) eligible
(`!eligibleCombos[comboKey]`), skip an item priced `null`, otherwise
accumulate `customerTotal += price` and one line item. -/
def mainItemStep (eligibleCombos : List (String × Nat))
    (tierMap : List (String × String)) (pricing : PricingConfig)
    (acc : Option ℚ × Nat) (item : Item) : Option ℚ × Nat :=
  if comboCount eligibleCombos item = 0 then acc
  else
    match getItemPrice item tierMap pricing with
    | none => acc
    | some r => (jsAdd acc.1 r.price, acc.2 + 1)

/-- The per-customer item loop of `main`: returns (customerTotal as a
JS number, number of line items). -/
def processItems (items : List Item) (eligibleCombos : List (String × Nat))
    (tierMap : List (String × String)) (pricing : PricingConfig) :
    Option ℚ × Nat :=
  items.foldl (mainItemStep eligibleCombos tierMap pricing) (some 0, 0)

/-- The price results of the items the main loop actually prices, in
order: eligible combo and non-null `getItemPrice`. -/
def pricedItems (items : List Item) (eligibleCombos : List (String × Nat))
    (tierMap : List (String × String)) (pricing : PricingConfig) :
    List PriceResult :=
  items.filterMap fun item =>
    if comboCount eligibleCombos item = 0 then none
    else getItemPrice item tierMap pricing

/-- JS sum of a list of item prices. -/
def sumPrices (rs : List PriceResult) : Option ℚ :=
  rs.foldl (fun a r => jsAdd a r.price) (some 0)

/-- Per-customer invoice totals. -/
structure InvoiceTotals where
  subtotal : ℚ
  tax : ℚ
  stripeFee : ℚ
  orderTotal : ℚ
deriving DecidableEq, Repr

/-- The per-customer tail of `main`: skip the customer when no line item
was produced; otherwise tax on the product subtotal, processing fee on
(subtotal + tax), grand total as their sum.  `none` also models the
degenerate case of a `NaN` running total, which cannot arise when every
priced item's base price is defined. -/
def customerInvoice (items : List Item) (eligibleCombos : List (String × Nat))
    (tierMap : List (String × String)) (pricing : PricingConfig) :
    Option InvoiceTotals :=
  match processItems items eligibleCombos tierMap pricing with
  | (_, 0) => none
  | (none, _) => none
  | (some s, Nat.succ _) =>
    let tax := calculateTax s pricing.taxRate
    let fee := calculateStripeFee (s + tax)
    some { subtotal := s, tax := tax, stripeFee := fee, orderTotal := s + tax + fee }

/-- Tier lists are sorted descending by `minQty`. -/
def SortedDesc (tiers : List Tier) : Prop :=
  tiers.Pairwise fun a b => b.minQty ≤ a.minQty

instance : DecidablePred SortedDesc := fun l =>
  List.instDecidablePairwise l

/-! ## Concrete scenario fixtures (from §8 of the spec) -/

/-- Scenario pricing config: product "Jacket" with tier prices
`6 ↦ 175.00` and `18 ↦ 173.58`, embroideryFee 8.00, logoFee 10.00,
foldingFee 0.75, taxRate 7.25%. -/
def scenarioPricing : PricingConfig :=
  { tiers := [⟨18, "18-49 pcs"⟩, ⟨6, "6-17 pcs"⟩],
    products := [("Jacket", [("6", 175), ("18", 17358/100)])],
    embroideryFee := 8,
    logoFee := some 10,
    foldingFee := some (3/4),
    taxRate := 725/10000,
    currency := "usd" }

/-- Scenario tier map: the Jacket/Black combination resolved to tier 18. -/
def scenarioTierMap : List (String × String) := [("Jacket|Black", "18")]

/-- Scenario item: a Jacket in Black with an embroidered name. -/
def scenarioItem : Item :=
  { product := "Jacket", style := "Better Sweater", size := "M",
    color := "Black", logo := "Left Chest", embroideredName := "Sam",
    threadColor := "White" }

/-- The scenario item with a whitespace-only embroidered name, which JS
truthiness treats as present. -/
def scenarioItemWhitespaceName : Item :=
  { scenarioItem with embroideredName := " " }

/-- A pricing config whose tier list has floor minimum quantity 18, so
its floor tier identifier is "18", not "6". -/
def floor18Pricing : PricingConfig :=
  { tiers := [⟨18, "18+ pcs"⟩],
    products := [("Jacket", [("18", 100), ("6", 50)])],
    embroideryFee := 8,
    logoFee := none,
    foldingFee := none,
    taxRate := 0,
    currency := "usd" }

/-- A Jacket item with no embroidery. -/
def plainJacketItem : Item :=
  { product := "Jacket", style := "Better Sweater", size := "M",
    color := "Black", logo := "Left Chest", embroideredName := "",
    threadColor := "" }

/-- A pricing config whose Jacket price table lacks an entry for the
default tier key "6". -/
def missing6Pricing : PricingConfig :=
  { tiers := [⟨18, "18+ pcs"⟩],
    products := [("Jacket", [("18", 100)])],
    embroideryFee := 8,
    logoFee := none,
    foldingFee := none,
    taxRate := 0,
    currency := "usd" }

/-- A row of the two-gray-variants scenario, parameterized by raw
color. -/
def grayScenarioRow (color : String) : Row :=
  { Name := "A", Phone := "555", Email := some "a@x.com",
    Product := "Jacket", Style := "Better Sweater", Size := "M",
    Color := color, Logo := "Left Chest",
    EmbroideredName := none, ThreadColor := none }

/-- Five "Birch White" rows followed by five "Stonewash" rows, all
Jackets. -/
def grayScenarioRows : List Row :=
  List.replicate 5 (grayScenarioRow "Birch White") ++
    List.replicate 5 (grayScenarioRow "Stonewash")

/-- A flat-300.00 item for the totals scenario. -/
def totalsItem : Item :=
  { product := "Widget", style := "Basic", size := "M", color := "Black",
    logo := "None", embroideredName := "", threadColor := "" }

/-- Pricing for the totals scenario: a single 300.00 price so the
customer subtotal is exactly 300.00 at taxRate 7.25%. -/
def totalsPricing : PricingConfig :=
  { tiers := [⟨6, "6+ pcs"⟩],
    products := [("Widget", [("6", 300)])],
    embroideryFee := 8,
    logoFee := none,
    foldingFee := none,
    taxRate := 725/10000,
    currency := "usd" }

/-- Eligible counts for the totals scenario. -/
def totalsEligible : List (String × Nat) := [("Widget|Black", 6)]

/-- First row of the grouping scenario: email "ab" (already
lower-case). -/
def aliceRow : Row :=
  { Name := "Alice", Phone := "111", Email := some "ab",
    Product := "Jacket", Style := "Better Sweater", Size := "M",
    Color := "Black", Logo := "Left Chest",
    EmbroideredName := some "Sam", ThreadColor := some "White" }

/-- Second row of the grouping scenario: same email up to case ("AB"),
different name and phone. -/
def bobRow : Row :=
  { aliceRow with Name := "Bob", Phone := "222", Email := some "AB" }

/-! ## Association-list lemmas -/

@[simp]
theorem lookupKey_nil {β : Type} (k : String) : lookupKey k ([] : List (String × β)) = none := rfl

theorem lookupKey_cons {β : Type} (k k' : String) (v : β) (l : List (String × β)) :
    lookupKey k ((k', v) :: l) = if k' = k then some v else lookupKey k l := rfl

theorem lookupKey_eq_none_iff {β : Type} (k : String) (l : List (String × β)) :
    lookupKey k l = none ↔ k ∉ l.map Prod.fst := by
  induction l with
  | nil => simp
  | cons p l ih =>
    obtain ⟨k', v⟩ := p
    rw [lookupKey_cons]
    by_cases h : k' = k
    · subst h; simp
    · rw [if_neg h, ih]
      simp only [List.map_cons, List.mem_cons]
      constructor
      · intro hnot hc
        rcases hc with hc | hc
        · exact h hc.symm
        · exact hnot hc
      · intro hnot hc
        exact hnot (Or.inr hc)

theorem mem_of_getLast?_eq {α : Type} {l : List α} {x : α} (h : l.getLast? = some x) :
    x ∈ l := by
  obtain ⟨hne, hx⟩ := List.mem_getLast?_eq_getLast (show x ∈ l.getLast? by simp [h])
  exact hx ▸ List.getLast_mem hne

theorem mem_of_lookupKey_eq_some {β : Type} {k : String} {v : β} {l : List (String × β)}
    (h : lookupKey k l = some v) : (k, v) ∈ l := by
  induction l with
  | nil => simp at h
  | cons p l ih =>
    obtain ⟨k', v'⟩ := p
    rw [lookupKey_cons] at h
    split at h
    · next he => cases h; cases he; simp
    · exact List.mem_cons_of_mem _ (ih h)

theorem lookupKey_eq_some_of_mem_nodup {β : Type} {k : String} {v : β}
    {l : List (String × β)} (hnd : (l.map Prod.fst).Nodup) (hmem : (k, v) ∈ l) :
    lookupKey k l = some v := by
  induction l with
  | nil => simp at hmem
  | cons p l ih =>
    obtain ⟨k', v'⟩ := p
    simp only [List.map_cons, List.nodup_cons] at hnd
    rcases List.mem_cons.mp hmem with h | h
    · cases h; simp [lookupKey_cons]
    · rw [lookupKey_cons]
      split
      · next he =>
        exact absurd (List.mem_map_of_mem Prod.fst h) (he ▸ hnd.1)
      · exact ih hnd.2 h

theorem eq_of_mem_mem_nodup_keys {β : Type} {l : List (String × β)}
    (hnd : (l.map Prod.fst).Nodup) {p q : String × β}
    (hp : p ∈ l) (hq : q ∈ l) (hk : p.1 = q.1) : p = q := by
  obtain ⟨kp, vp⟩ := p
  obtain ⟨kq, vq⟩ := q
  simp only at hk
  subst hk
  have h1 := lookupKey_eq_some_of_mem_nodup hnd hp
  have h2 := lookupKey_eq_some_of_mem_nodup hnd hq
  rw [h1] at h2
  cases h2
  rfl

/-! ## Tier-resolution lemmas -/

theorem firstMatch_eq_none_iff (q : Nat) (l : List Tier) :
    firstMatch q l = none ↔ ∀ t ∈ l, q < t.minQty := by
  induction l with
  | nil => simp [firstMatch]
  | cons t ts ih =>
    simp only [firstMatch, List.mem_cons]
    split
    · next h =>
      constructor
      · intro hc; exact absurd hc (by simp)
      · intro hall; exact absurd (hall t (Or.inl rfl)) (by omega)
    · next h =>
      rw [ih]
      constructor
      · rintro hall t' (rfl | ht') <;> [omega; exact hall t' ht']
      · intro hall t' ht'; exact hall t' (Or.inr ht')

theorem firstMatch_eq_some (q : Nat) {l : List Tier} {k : Nat}
    (h : firstMatch q l = some k) : ∃ t ∈ l, t.minQty = k ∧ k ≤ q := by
  induction l with
  | nil => simp [firstMatch] at h
  | cons t ts ih =>
    simp only [firstMatch] at h
    split at h
    · next hle => cases h; exact ⟨t, by simp, rfl, hle⟩
    · obtain ⟨t', ht', hk, hq⟩ := ih h
      exact ⟨t', List.mem_cons_of_mem _ ht', hk, hq⟩

theorem getPricingTier_mem {q : Nat} {l : List Tier} {k : Nat}
    (h : getPricingTier q l = some k) : ∃ t ∈ l, t.minQty = k := by
  rw [getPricingTier] at h
  split at h
  · next hm => cases h; obtain ⟨t, ht, hk, _⟩ := firstMatch_eq_some q hm; exact ⟨t, ht, hk⟩
  · next hm =>
    obtain ⟨t, ht, hk⟩ := Option.map_eq_some'.mp h
    exact ⟨t, mem_of_getLast?_eq ht, hk⟩

theorem getPricingTier_isSome {q : Nat} {l : List Tier} (hne : l ≠ []) :
    ∃ k, getPricingTier q l = some k := by
  rw [getPricingTier]
  split
  · next h => exact ⟨_, rfl⟩
  · obtain ⟨t, ht⟩ := List.getLast?_isSome.mpr hne |> Option.isSome_iff_exists.mp
    exact ⟨t.minQty, by rw [ht]; rfl⟩

theorem sortedDesc_getLast_le {l : List Tier} (hs : SortedDesc l) {t : Tier}
    (hlast : l.getLast? = some t) : ∀ u ∈ l, t.minQty ≤ u.minQty := by
  induction l with
  | nil => simp at hlast
  | cons u ts ih =>
    rw [SortedDesc, List.pairwise_cons] at hs
    intro v hv
    rcases List.mem_cons.mp hv with rfl | hv'
    · cases ts with
      | nil => simp at hlast; cases hlast; exact le_refl _
      | cons w ws =>
        rw [List.getLast?_cons_cons] at hlast
        exact le_trans (hs.1 t (mem_of_getLast?_eq hlast)) (le_refl _)
    · cases ts with
      | nil => simp at hv'
      | cons w ws =>
        rw [List.getLast?_cons_cons] at hlast
        exact ih hs.2 hlast v hv'

theorem firstMatch_mono {l : List Tier} (hs : SortedDesc l) {q q' : Nat} (hq : q ≤ q')
    {k : Nat} (h : firstMatch q l = some k) :
    ∃ k', firstMatch q' l = some k' ∧ k ≤ k' := by
  induction l with
  | nil => simp [firstMatch] at h
  | cons t ts ih =>
    rw [SortedDesc, List.pairwise_cons] at hs
    simp only [firstMatch] at h ⊢
    by_cases h1 : t.minQty ≤ q
    · rw [if_pos h1] at h
      cases h
      rw [if_pos (le_trans h1 hq)]
      exact ⟨t.minQty, rfl, le_refl _⟩
    · rw [if_neg h1] at h
      by_cases h2 : t.minQty ≤ q'
      · rw [if_pos h2]
        obtain ⟨t', ht', hk, _⟩ := firstMatch_eq_some q h
        exact ⟨t.minQty, rfl, hk ▸ hs.1 t' ht'⟩
      · rw [if_neg h2]
        exact ih hs.2 h

theorem firstMatch_append_of_no_match (q : Nat) {pre : List Tier}
    (hpre : ∀ u ∈ pre, q < u.minQty) (l : List Tier) :
    firstMatch q (pre ++ l) = firstMatch q l := by
  induction pre with
  | nil => simp
  | cons u us ih =>
    have hu := hpre u (by simp)
    simp only [List.cons_append, firstMatch, if_neg (by omega : ¬ u.minQty ≤ q)]
    exact ih fun v hv => hpre v (List.mem_cons_of_mem _ hv)

/-! ## Eligibility-filter lemmas -/

theorem mem_filterByMinimum_eligible (counts : List (String × Nat)) (m : Nat)
    (kv : String × Nat) :
    kv ∈ (filterByMinimum counts m).1 ↔ kv ∈ counts ∧ m ≤ kv.2 := by
  induction counts with
  | nil => simp [filterByMinimum]
  | cons kv' rest ih =>
    simp only [filterByMinimum]
    split
    · next h =>
      simp only [List.mem_cons, ih]
      constructor
      · rintro (rfl | ⟨hm, hle⟩)
        · exact ⟨Or.inl rfl, h⟩
        · exact ⟨Or.inr hm, hle⟩
      · rintro ⟨rfl | hm, hle⟩
        · exact Or.inl rfl
        · exact Or.inr ⟨hm, hle⟩
    · next h =>
      rw [ih]
      simp only [List.mem_cons]
      constructor
      · rintro ⟨hm, hle⟩
        exact ⟨Or.inr hm, hle⟩
      · rintro ⟨rfl | hm, hle⟩
        · omega
        · exact ⟨hm, hle⟩

theorem mem_filterByMinimum_excluded (counts : List (String × Nat)) (m : Nat)
    (kv : String × Nat) :
    kv ∈ (filterByMinimum counts m).2 ↔ kv ∈ counts ∧ kv.2 < m := by
  induction counts with
  | nil => simp [filterByMinimum]
  | cons kv' rest ih =>
    simp only [filterByMinimum]
    split
    · next h =>
      rw [ih]
      simp only [List.mem_cons]
      constructor
      · rintro ⟨hm, hlt⟩
        exact ⟨Or.inr hm, hlt⟩
      · rintro ⟨rfl | hm, hlt⟩
        · omega
        · exact ⟨hm, hlt⟩
    · next h =>
      simp only [List.mem_cons, ih]
      constructor
      · rintro (rfl | ⟨hm, hlt⟩)
        · exact ⟨Or.inl rfl, by omega⟩
        · exact ⟨Or.inr hm, hlt⟩
      · rintro ⟨rfl | hm, hlt⟩
        · exact Or.inl rfl
        · exact Or.inr ⟨hm, hlt⟩

/-! ## Claim theorems -/

/-- C2: on a non-empty tier list sorted descending by `minQty` and any
quantity, `getPricingTier` returns the `minQty` of the first tier in
order whose `minQty ≤ q`; when `q` is below every threshold it returns
the last tier, which is the one with the smallest `minQty` (the floor
tier); and it always returns the identifier of some tier of the list. -/
theorem C2_getPricingTier_resolution (tiers : List Tier) (q : Nat)
    (hne : tiers ≠ []) (hs : SortedDesc tiers) :
    (∃ t ∈ tiers, getPricingTier q tiers = some t.minQty) ∧
    (∀ pre t post, tiers = pre ++ t :: post → (∀ u ∈ pre, q < u.minQty) →
      t.minQty ≤ q → getPricingTier q tiers = some t.minQty) ∧
    ((∀ t ∈ tiers, q < t.minQty) →
      ∃ t ∈ tiers, tiers.getLast? = some t ∧ getPricingTier q tiers = some t.minQty ∧
        ∀ u ∈ tiers, t.minQty ≤ u.minQty) := by
  refine ⟨?_, ?_, ?_⟩
  · obtain ⟨k, hk⟩ := getPricingTier_isSome (q := q) hne
    obtain ⟨t, ht, hmin⟩ := getPricingTier_mem hk
    exact ⟨t, ht, by rw [hk, hmin]⟩
  · rintro pre t post rfl hpre ht
    rw [getPricingTier, firstMatch_append_of_no_match q hpre]
    simp [firstMatch, ht]
  · intro hall
    have hfm : firstMatch q tiers = none := (firstMatch_eq_none_iff q tiers).mpr hall
    obtain ⟨t, hlast⟩ :=
      Option.isSome_iff_exists.mp (List.getLast?_isSome.mpr hne)
    refine ⟨t, mem_of_getLast?_eq hlast, hlast, ?_, sortedDesc_getLast_le hs hlast⟩
    rw [getPricingTier, hfm, hlast]
    rfl

/-- Witness for C2 at tiers 18/6 and quantity 3. -/
theorem C2_getPricingTier_resolution_witness :
    (∃ t ∈ ([⟨18, "18-49 pcs"⟩, ⟨6, "6-17 pcs"⟩] : List Tier),
      getPricingTier 3 [⟨18, "18-49 pcs"⟩, ⟨6, "6-17 pcs"⟩] = some t.minQty) ∧
    (∀ pre t post,
      ([⟨18, "18-49 pcs"⟩, ⟨6, "6-17 pcs"⟩] : List Tier) = pre ++ t :: post →
      (∀ u ∈ pre, 3 < u.minQty) → t.minQty ≤ 3 →
      getPricingTier 3 [⟨18, "18-49 pcs"⟩, ⟨6, "6-17 pcs"⟩] = some t.minQty) ∧
    ((∀ t ∈ ([⟨18, "18-49 pcs"⟩, ⟨6, "6-17 pcs"⟩] : List Tier), 3 < t.minQty) →
      ∃ t ∈ ([⟨18, "18-49 pcs"⟩, ⟨6, "6-17 pcs"⟩] : List Tier),
        ([⟨18, "18-49 pcs"⟩, ⟨6, "6-17 pcs"⟩] : List Tier).getLast? = some t ∧
        getPricingTier 3 [⟨18, "18-49 pcs"⟩, ⟨6, "6-17 pcs"⟩] = some t.minQty ∧
        ∀ u ∈ ([⟨18, "18-49 pcs"⟩, ⟨6, "6-17 pcs"⟩] : List Tier), t.minQty ≤ u.minQty) :=
  C2_getPricingTier_resolution [⟨18, "18-49 pcs"⟩, ⟨6, "6-17 pcs"⟩] 3
    (by simp) (by decide)

/-- C6: for a fixed tier list sorted descending by `minQty`,
`getPricingTier` is monotone in the quantity: a larger quantity resolves
to a tier with a minimum quantity at least as large. -/
theorem C6_getPricingTier_monotone (tiers : List Tier) (hs : SortedDesc tiers)
    (q1 q2 k1 k2 : Nat) (hq : q2 ≤ q1)
    (h1 : getPricingTier q1 tiers = some k1)
    (h2 : getPricingTier q2 tiers = some k2) : k2 ≤ k1 := by
  rw [getPricingTier] at h2
  split at h2
  · next hm2 =>
    cases h2
    obtain ⟨k1', hfm1, hle⟩ := firstMatch_mono hs hq hm2
    rw [getPricingTier, hfm1] at h1
    cases h1
    exact hle
  · next hm2 =>
    obtain ⟨t, hlast, hk⟩ := Option.map_eq_some'.mp h2
    obtain ⟨t1, ht1, hk1⟩ := getPricingTier_mem h1
    subst hk
    subst hk1
    exact sortedDesc_getLast_le hs hlast t1 ht1

/-- Witness for C6 at tiers 18/6, quantities 20 and 3. -/
theorem C6_getPricingTier_monotone_witness : (6 : Nat) ≤ 18 :=
  C6_getPricingTier_monotone [⟨18, "18-49 pcs"⟩, ⟨6, "6-17 pcs"⟩] (by decide)
    20 3 18 6 (by omega) (by decide) (by decide)

/-- C7 (amended): when every count in the map meets at least one tier
threshold (equivalently, is at least the floor tier's minimum quantity),
`buildTierMap` succeeds and assigns every key a tier identifier that is
at most that key's count. -/
theorem C7_buildTierMap_le_count (counts : List (String × Nat)) (tiers : List Tier)
    (hfloor : ∀ kv ∈ counts, ∃ t ∈ tiers, t.minQty ≤ kv.2) :
    ∃ m, buildTierMap counts tiers = some m ∧
      ∀ kv ∈ counts, ∃ n, (kv.1, toString n) ∈ m ∧ n ≤ kv.2 := by
  induction counts with
  | nil => exact ⟨[], rfl, by simp⟩
  | cons kv rest ih =>
    obtain ⟨m, hm, hprop⟩ := ih fun kv' h => hfloor kv' (List.mem_cons_of_mem _ h)
    have hfm : firstMatch kv.2 tiers ≠ none := by
      intro hcontra
      rw [firstMatch_eq_none_iff] at hcontra
      obtain ⟨t, ht, hle⟩ := hfloor kv (by simp)
      exact absurd (hcontra t ht) (by omega)
    obtain ⟨k, hk⟩ := Option.ne_none_iff_exists'.mp hfm
    have hk_le : k ≤ kv.2 := by
      obtain ⟨t, _, _, hle⟩ := firstMatch_eq_some _ hk
      exact hle
    refine ⟨(kv.1, toString k) :: m, ?_, ?_⟩
    · rw [buildTierMap, getPricingTierKey, getPricingTier, hk, hm]
      rfl
    · intro kv' hkv'
      rcases List.mem_cons.mp hkv' with rfl | h
      · exact ⟨k, List.mem_cons_self _ _, hk_le⟩
      · obtain ⟨n, hmem, hle⟩ := hprop kv' h
        exact ⟨n, List.mem_cons_of_mem _ hmem, hle⟩

/-- Witness for C7 at the eligible map from the spec's scenario. -/
theorem C7_buildTierMap_le_count_witness :
    ∃ m, buildTierMap [("Jacket|Black", 10)] [⟨18, "18-49 pcs"⟩, ⟨6, "6-17 pcs"⟩] = some m ∧
      ∀ kv ∈ [("Jacket|Black", (10 : Nat))], ∃ n, (kv.1, toString n) ∈ m ∧ n ≤ kv.2 :=
  C7_buildTierMap_le_count [("Jacket|Black", 10)] [⟨18, "18-49 pcs"⟩, ⟨6, "6-17 pcs"⟩]
    (by intro kv hkv; simp only [List.mem_singleton] at hkv; subst hkv
        exact ⟨⟨6, "6-17 pcs"⟩, by simp, by decide⟩)

/-- Counterexample to C7 as stated: in bypass ("ignore minimum") mode the
eligible map is the raw count map, so a count of 3 is eligible; the tier
list with floor 6 then assigns tier identifier 6, which exceeds the
count. -/
theorem C7_counterexample :
    buildTierMap [("Jacket|Navy", 3)] [⟨6, "6-17 pcs"⟩] = some [("Jacket|Navy", "6")] ∧
    ¬ ((6 : Nat) ≤ 3) := by
  constructor
  · decide
  · decide

/-- C5: with the distinct keys a JS object guarantees, `filterByMinimum`
partitions the count map exhaustively and disjointly: an entry lands in
the eligible output exactly when its count meets the minimum and in the
excluded output otherwise, no key appears on both sides, and both
outputs draw only from the input. -/
theorem C5_filterByMinimum_partitions (counts : List (String × Nat)) (minQ : Nat)
    (hnd : (counts.map Prod.fst).Nodup) :
    (∀ kv ∈ counts,
      (kv ∈ (filterByMinimum counts minQ).1 ↔ minQ ≤ kv.2) ∧
      (kv ∈ (filterByMinimum counts minQ).2 ↔ kv.2 < minQ) ∧
      ¬ (kv.1 ∈ (filterByMinimum counts minQ).1.map Prod.fst ∧
         kv.1 ∈ (filterByMinimum counts minQ).2.map Prod.fst)) ∧
    (∀ kv ∈ (filterByMinimum counts minQ).1, kv ∈ counts) ∧
    (∀ kv ∈ (filterByMinimum counts minQ).2, kv ∈ counts) := by
  refine ⟨?_, ?_, ?_⟩
  · intro kv hkv
    refine ⟨?_, ?_, ?_⟩
    · rw [mem_filterByMinimum_eligible]
      exact ⟨fun h => h.2, fun h => ⟨hkv, h⟩⟩
    · rw [mem_filterByMinimum_excluded]
      exact ⟨fun h => h.2, fun h => ⟨hkv, h⟩⟩
    · rintro ⟨h1, h2⟩
      obtain ⟨kv1, hkv1, hfst1⟩ := List.mem_map.mp h1
      obtain ⟨kv2, hkv2, hfst2⟩ := List.mem_map.mp h2
      rw [mem_filterByMinimum_eligible] at hkv1
      rw [mem_filterByMinimum_excluded] at hkv2
      have : kv1 = kv2 :=
        eq_of_mem_mem_nodup_keys hnd hkv1.1 hkv2.1 (by rw [hfst1, hfst2])
      subst this
      omega
  · intro kv hkv
    exact ((mem_filterByMinimum_eligible counts minQ kv).mp hkv).1
  · intro kv hkv
    exact ((mem_filterByMinimum_excluded counts minQ kv).mp hkv).1

/-- Witness for C5 at the spec's scenario counts and minimum 6. -/
theorem C5_filterByMinimum_partitions_witness :
    (∀ kv ∈ [("Jacket|Black", (10 : Nat)), ("Jacket|Navy", 3)],
      (kv ∈ (filterByMinimum [("Jacket|Black", 10), ("Jacket|Navy", 3)] 6).1 ↔ 6 ≤ kv.2) ∧
      (kv ∈ (filterByMinimum [("Jacket|Black", 10), ("Jacket|Navy", 3)] 6).2 ↔ kv.2 < 6) ∧
      ¬ (kv.1 ∈ (filterByMinimum [("Jacket|Black", 10), ("Jacket|Navy", 3)] 6).1.map Prod.fst ∧
         kv.1 ∈ (filterByMinimum [("Jacket|Black", 10), ("Jacket|Navy", 3)] 6).2.map Prod.fst)) ∧
    (∀ kv ∈ (filterByMinimum [("Jacket|Black", (10 : Nat)), ("Jacket|Navy", 3)] 6).1,
      kv ∈ [("Jacket|Black", (10 : Nat)), ("Jacket|Navy", 3)]) ∧
    (∀ kv ∈ (filterByMinimum [("Jacket|Black", (10 : Nat)), ("Jacket|Navy", 3)] 6).2,
      kv ∈ [("Jacket|Black", (10 : Nat)), ("Jacket|Navy", 3)]) :=
  C5_filterByMinimum_partitions [("Jacket|Black", 10), ("Jacket|Navy", 3)] 6 (by decide)

/-- C1 (amended): for an item whose product has a price-table entry at
the resolved tier key, the unit price is the base price at that tier,
plus the embroidery fee iff the embroidered name is a non-empty string
(JS truthiness — a whitespace-only name counts as present), plus the
logo and folding fees on every priced item; in the spec's scenario the
unit price is 173.58 + 8.00 + 10.00 + 0.75 = 192.33 at tier 18. -/
theorem C1_getItemPrice_composition :
    (∀ (item : Item) (tm : List (String × String)) (pricing : PricingConfig)
       (tbl : List (String × ℚ)) (b : ℚ),
      lookupKey item.product pricing.products = some tbl →
      lookupKey (resolvedTierKey item tm) tbl = some b →
      getItemPrice item tm pricing =
        some { price := some (b + (if item.embroideredName ≠ "" then pricing.embroideryFee else 0)
                 + jsOrZero pricing.logoFee + jsOrZero pricing.foldingFee),
               tierKey := resolvedTierKey item tm }) ∧
    getItemPrice scenarioItem scenarioTierMap scenarioPricing =
      some { price := some (19233/100), tierKey := "18" } := by
  constructor
  · intro item tm pricing tbl b hp hb
    rw [getItemPrice, hp]
    simp only [hb, jsAdd]
  · rw [show getItemPrice scenarioItem scenarioTierMap scenarioPricing =
        some { price := some (17358/100 + 8 + 10 + 3/4), tierKey := "18" } from rfl]
    norm_num

/-- Witness for C1 at the spec's scenario inputs. -/
theorem C1_getItemPrice_composition_witness :
    getItemPrice scenarioItem scenarioTierMap scenarioPricing =
      some { price := some (17358/100 + (if scenarioItem.embroideredName ≠ "" then
               scenarioPricing.embroideryFee else 0)
               + jsOrZero scenarioPricing.logoFee + jsOrZero scenarioPricing.foldingFee),
             tierKey := resolvedTierKey scenarioItem scenarioTierMap } :=
  C1_getItemPrice_composition.1 scenarioItem scenarioTierMap scenarioPricing
    [("6", 175), ("18", 17358/100)] (17358/100) rfl rfl

/-- Counterexample to C1 as stated: a whitespace-only embroidered name
is not "present" under a whitespace-insignificant reading, yet the code
still charges the embroidery fee: the unit price is 192.33, not
173.58 + 10.00 + 0.75 = 184.33. -/
theorem C1_counterexample :
    (∀ ch ∈ scenarioItemWhitespaceName.embroideredName.toList, ch.isWhitespace) ∧
    getItemPrice scenarioItemWhitespaceName scenarioTierMap scenarioPricing =
      some { price := some (19233/100), tierKey := "18" } ∧
    (19233/100 : ℚ) ≠ 17358/100 + 10 + 3/4 := by
  refine ⟨by decide, ?_, by norm_num⟩
  rw [show getItemPrice scenarioItemWhitespaceName scenarioTierMap scenarioPricing =
      some { price := some (17358/100 + 8 + 10 + 3/4), tierKey := "18" } from rfl]
  norm_num

/-- C3 (amended): when an item's ProductColorKey is absent from the tier
map (or mapped to a falsy value), `getItemPrice` does not fail: it
prices the item at the fixed default tier key "6" — which coincides with
the configured floor tier identifier only when the tier list's smallest
minimum quantity is 6. -/
theorem C3_missing_tier_map_entry_defaults :
    ∀ (item : Item) (tm : List (String × String)) (pricing : PricingConfig)
      (tbl : List (String × ℚ)),
      lookupKey item.product pricing.products = some tbl →
      lookupKey (productColorKey item.product item.color) tm = none →
      resolvedTierKey item tm = "6" ∧
      getItemPrice item tm pricing =
        some { price := jsAdd (jsAdd (jsAdd (lookupKey "6" tbl)
                  (some (if item.embroideredName ≠ "" then pricing.embroideryFee else 0)))
                (some (jsOrZero pricing.logoFee))) (some (jsOrZero pricing.foldingFee)),
               tierKey := "6" } := by
  intro item tm pricing tbl hp htm
  have hkey : resolvedTierKey item tm = "6" := by
    rw [resolvedTierKey, htm]
  refine ⟨hkey, ?_⟩
  rw [getItemPrice, hp]
  simp only [hkey]

/-- Witness for C3: Jacket/Black absent from the empty tier map is
priced at tier key "6" (base price 175.00 plus fees). -/
theorem C3_missing_tier_map_entry_defaults_witness :
    resolvedTierKey scenarioItem [] = "6" ∧
    getItemPrice scenarioItem [] scenarioPricing =
      some { price := jsAdd (jsAdd (jsAdd (lookupKey "6" [("6", (175 : ℚ)), ("18", 17358/100)])
                (some (if scenarioItem.embroideredName ≠ "" then
                  scenarioPricing.embroideryFee else 0)))
              (some (jsOrZero scenarioPricing.logoFee)))
              (some (jsOrZero scenarioPricing.foldingFee)),
             tierKey := "6" } :=
  C3_missing_tier_map_entry_defaults scenarioItem [] scenarioPricing
    [("6", 175), ("18", 17358/100)] rfl rfl

/-- Counterexample to C3 as stated: with a configured tier list whose
floor tier identifier is "18", an item missing from the tier map is
priced at the hard-coded key "6" (base price 50), not at the floor tier
"18" (base price 100). -/
theorem C3_counterexample :
    floorTierKey floor18Pricing.tiers = some "18" ∧
    getItemPrice plainJacketItem [] floor18Pricing =
      some { price := some 50, tierKey := "6" } ∧
    ("6" : String) ≠ "18" ∧
    lookupKey "18" [("18", (100 : ℚ)), ("6", 50)] = some 100 ∧
    (50 : ℚ) ≠ 100 := by
  refine ⟨by decide, ?_, by decide, rfl, by norm_num⟩
  rw [show getItemPrice plainJacketItem [] floor18Pricing =
      some { price := some (50 + 0 + 0 + 0), tierKey := "6" } from rfl]
  norm_num

/-- C10: `getItemPrice` returns its `null` sentinel exactly when the
product has no price-table entry; for a known product whose table lacks
the resolved tier key it still returns a result, but one whose price is
built from an undefined base price (`NaN`); when the table covers the
resolved tier key the price is the well-defined fee composition. -/
theorem C10_getItemPrice_failure_modes :
    (∀ (item : Item) (tm : List (String × String)) (pricing : PricingConfig),
      getItemPrice item tm pricing = none ↔
        lookupKey item.product pricing.products = none) ∧
    (∀ (item : Item) (tm : List (String × String)) (pricing : PricingConfig)
       (tbl : List (String × ℚ)),
      lookupKey item.product pricing.products = some tbl →
      lookupKey (resolvedTierKey item tm) tbl = none →
      ∃ r, getItemPrice item tm pricing = some r ∧ r.price = none) ∧
    (∀ (item : Item) (tm : List (String × String)) (pricing : PricingConfig)
       (tbl : List (String × ℚ)) (b : ℚ),
      lookupKey item.product pricing.products = some tbl →
      lookupKey (resolvedTierKey item tm) tbl = some b →
      ∃ r, getItemPrice item tm pricing = some r ∧
        r.price = some (b + (if item.embroideredName ≠ "" then pricing.embroideryFee else 0)
          + jsOrZero pricing.logoFee + jsOrZero pricing.foldingFee)) := by
  refine ⟨?_, ?_, ?_⟩
  · intro item tm pricing
    rw [getItemPrice]
    cases h : lookupKey item.product pricing.products with
    | none => simp
    | some tbl => simp
  · intro item tm pricing tbl hp hb
    rw [getItemPrice, hp]
    exact ⟨_, rfl, by simp only [hb, jsAdd]⟩
  · intro item tm pricing tbl b hp hb
    rw [getItemPrice, hp]
    exact ⟨_, rfl, by simp only [hb, jsAdd]⟩

/-- Witness for C10: the Jacket table lacking a "6" entry yields a
non-null result with an undefined (NaN) price component. -/
theorem C10_getItemPrice_failure_modes_witness :
    ∃ r, getItemPrice plainJacketItem [] missing6Pricing = some r ∧ r.price = none :=
  C10_getItemPrice_failure_modes.2.1 plainJacketItem [] missing6Pricing
    [("18", 100)] rfl rfl

/-- C8: color normalization acts identically at aggregation and pricing
time: items agreeing on product, normalized color and embroidery
presence get identical `getItemPrice` results, and the two gray-variant
scenario rows aggregate to the single key `Jacket|Gray` with count 10. -/
theorem C8_normalization_consistency :
    (∀ (i1 i2 : Item) (tm : List (String × String)) (pricing : PricingConfig),
      i1.product = i2.product →
      normalizeColor i1.color = normalizeColor i2.color →
      (i1.embroideredName = "" ↔ i2.embroideredName = "") →
      getItemPrice i1 tm pricing = getItemPrice i2 tm pricing) ∧
    countByProductColor grayScenarioRows = [("Jacket|Gray", 10)] := by
  constructor
  · intro i1 i2 tm pricing hp hc he
    have hkey : productColorKey i1.product i1.color = productColorKey i2.product i2.color := by
      rw [productColorKey, productColorKey, hp, hc]
    have htier : resolvedTierKey i1 tm = resolvedTierKey i2 tm := by
      rw [resolvedTierKey, resolvedTierKey, hkey]
    have hfee : (if i1.embroideredName ≠ "" then pricing.embroideryFee else 0)
        = (if i2.embroideredName ≠ "" then pricing.embroideryFee else 0) := by
      by_cases h1 : i1.embroideredName = ""
      · rw [if_neg (by simp [h1]), if_neg (by simp [he.mp h1])]
      · rw [if_pos h1, if_pos fun hc2 => h1 (he.mpr hc2)]
    rw [getItemPrice, getItemPrice, hp]
    simp only [htier, hfee]
  · decide

/-- Witness for C8: a Birch White and a Stonewash Jacket price
identically. -/
theorem C8_normalization_consistency_witness :
    getItemPrice { scenarioItem with color := "Birch White" } scenarioTierMap scenarioPricing =
      getItemPrice { scenarioItem with color := "Stonewash" } scenarioTierMap scenarioPricing :=
  C8_normalization_consistency.1
    { scenarioItem with color := "Birch White" }
    { scenarioItem with color := "Stonewash" }
    scenarioTierMap scenarioPricing rfl (by decide) (by simp [scenarioItem])

/-! ## Main-loop accounting lemmas -/

theorem foldl_mainItemStep (ec : List (String × Nat)) (tm : List (String × String))
    (p : PricingConfig) :
    ∀ (items : List Item) (a : Option ℚ) (n : Nat),
      items.foldl (mainItemStep ec tm p) (a, n) =
        ((pricedItems items ec tm p).foldl (fun acc r => jsAdd acc r.price) a,
         n + (pricedItems items ec tm p).length) := by
  intro items
  induction items with
  | nil => intro a n; simp [pricedItems]
  | cons it rest ih =>
    intro a n
    rw [List.foldl_cons]
    by_cases h0 : comboCount ec it = 0
    · rw [show mainItemStep ec tm p (a, n) it = (a, n) by rw [mainItemStep, if_pos h0]]
      rw [ih a n]
      have hpc : pricedItems (it :: rest) ec tm p = pricedItems rest ec tm p := by
        rw [pricedItems, List.filterMap_cons]
        simp only [if_pos h0]
        rfl
      rw [hpc]
    · cases hip : getItemPrice it tm p with
      | none =>
        rw [show mainItemStep ec tm p (a, n) it = (a, n) by
          rw [mainItemStep, if_neg h0, hip]]
        rw [ih a n]
        have hpc : pricedItems (it :: rest) ec tm p = pricedItems rest ec tm p := by
          rw [pricedItems, List.filterMap_cons]
          simp only [if_neg h0, hip]
          rfl
        rw [hpc]
      | some r =>
        rw [show mainItemStep ec tm p (a, n) it = (jsAdd a r.price, n + 1) by
          rw [mainItemStep, if_neg h0, hip]]
        rw [ih (jsAdd a r.price) (n + 1)]
        have hpc : pricedItems (it :: rest) ec tm p = r :: pricedItems rest ec tm p := by
          rw [pricedItems, List.filterMap_cons]
          simp only [if_neg h0, hip]
          rfl
        rw [hpc, List.foldl_cons, List.length_cons]
        simp only [Prod.mk.injEq, true_and]
        omega

theorem processItems_eq (items : List Item) (ec : List (String × Nat))
    (tm : List (String × String)) (p : PricingConfig) :
    processItems items ec tm p =
      (sumPrices (pricedItems items ec tm p), (pricedItems items ec tm p).length) := by
  rw [processItems, foldl_mainItemStep, sumPrices]
  simp

/-- C4 (amended): whenever the main loop produces an invoice for a
customer, the subtotal is the JS sum of the priced (eligible, known
product) items' unit prices, the tax is `subtotal * taxRate` on the
product subtotal only, the processing fee is
`(subtotal + tax) * 0.029 + 0.30` and the grand total is their sum; at
subtotal 300.00 and taxRate 0.0725 the tax is 21.75 and the processing
fee is 9.63075. -/
theorem C4_customer_totals :
    (∀ (items : List Item) (ec : List (String × Nat)) (tm : List (String × String))
       (p : PricingConfig) (t : InvoiceTotals),
      customerInvoice items ec tm p = some t →
      pricedItems items ec tm p ≠ [] ∧
      sumPrices (pricedItems items ec tm p) = some t.subtotal ∧
      t.tax = t.subtotal * p.taxRate ∧
      t.stripeFee = (t.subtotal + t.tax) * (29/1000) + 3/10 ∧
      t.orderTotal = t.subtotal + t.tax + t.stripeFee) ∧
    calculateTax 300 (725/10000) = 2175/100 ∧
    calculateStripeFee (300 + calculateTax 300 (725/10000)) = 963075/100000 := by
  refine ⟨?_, by rw [calculateTax]; norm_num, by rw [calculateStripeFee, calculateTax]; norm_num⟩
  intro items ec tm p t h
  rw [customerInvoice, processItems_eq] at h
  cases hl : pricedItems items ec tm p with
  | nil =>
    rw [hl] at h
    exact absurd h (by rw [sumPrices]; simp)
  | cons r rs =>
    rw [hl] at h
    cases hs : sumPrices (r :: rs) with
    | none => rw [hs] at h; exact Option.noConfusion h
    | some s =>
      rw [hs] at h
      simp only [List.length_cons] at h
      have ht : t = { subtotal := s, tax := calculateTax s p.taxRate,
                      stripeFee := calculateStripeFee (s + calculateTax s p.taxRate),
                      orderTotal := s + calculateTax s p.taxRate +
                        calculateStripeFee (s + calculateTax s p.taxRate) } := by
        cases h
        rfl
      subst ht
      refine ⟨by simp, rfl, ?_, ?_, rfl⟩
      · rw [calculateTax]
      · rw [calculateStripeFee, calculateTax]

/-- Witness for C4: one 300.00 item at taxRate 7.25% yields
tax 21.75, processing fee 9.63075 and grand total 331.38075. -/
theorem C4_customer_totals_witness :
    pricedItems [totalsItem] totalsEligible [] totalsPricing ≠ [] ∧
    sumPrices (pricedItems [totalsItem] totalsEligible [] totalsPricing) = some (300 : ℚ) ∧
    (2175/100 : ℚ) = 300 * totalsPricing.taxRate ∧
    (963075/100000 : ℚ) = ((300 : ℚ) + 2175/100) * (29/1000) + 3/10 ∧
    (33138075/100000 : ℚ) = 300 + 2175/100 + 963075/100000 := by
  have h := C4_customer_totals.1 [totalsItem] totalsEligible [] totalsPricing
    { subtotal := 300, tax := 2175/100, stripeFee := 963075/100000,
      orderTotal := 33138075/100000 } ?_
  · exact h
  · have hg : getItemPrice totalsItem [] totalsPricing =
        some { price := some (300 + 0 + 0 + 0), tierKey := "6" } := rfl
    have hpi : pricedItems [totalsItem] totalsEligible [] totalsPricing =
        [{ price := some 300, tierKey := "6" }] := by
      rw [pricedItems]
      simp only [List.filterMap_cons, List.filterMap_nil]
      rw [if_neg (show ¬ comboCount totalsEligible totalsItem = 0 by decide), hg]
      norm_num
    rw [customerInvoice, processItems_eq, hpi]
    norm_num [sumPrices, jsAdd, calculateTax, calculateStripeFee, totalsPricing]

/-- Counterexample to C4 as stated: the processing fee on 321.75 is
9.63075 exactly, not 9.6308. -/
theorem C4_counterexample :
    calculateStripeFee (32175/100) = 963075/100000 ∧
    (963075/100000 : ℚ) ≠ 96308/10000 := by
  constructor
  · rw [calculateStripeFee]; norm_num
  · norm_num

/-! ## Customer-grouping lemmas -/

theorem lookupKey_append {β : Type} (k : String) (l1 l2 : List (String × β)) :
    lookupKey k (l1 ++ l2) =
      match lookupKey k l1 with
      | some v => some v
      | none => lookupKey k l2 := by
  induction l1 with
  | nil => simp
  | cons p l ih =>
    obtain ⟨k', v⟩ := p
    rw [List.cons_append, lookupKey_cons, lookupKey_cons]
    by_cases h : k' = k
    · simp [h]
    · simp [h, ih]

theorem lookupKey_map_update {β : Type} (l : List (String × β)) (key : String)
    (f : β → β) (k : String) :
    lookupKey k (l.map fun p => if p.1 = key then (p.1, f p.2) else p) =
      if k = key then (lookupKey k l).map f else lookupKey k l := by
  induction l with
  | nil => simp
  | cons p l ih =>
    obtain ⟨k', v⟩ := p
    simp only [List.map_cons]
    by_cases hk' : k' = key
    · subst hk'
      rw [if_pos rfl]
      rw [lookupKey_cons, lookupKey_cons]
      by_cases hkk : k' = k
      · subst hkk
        rw [if_pos rfl, if_pos rfl, if_pos rfl]
        rfl
      · rw [if_neg hkk, if_neg hkk, ih]
    · rw [if_neg hk']
      rw [lookupKey_cons, lookupKey_cons]
      by_cases hkk : k' = k
      · subst hkk
        rw [if_pos rfl, if_pos rfl, if_neg hk']
      · rw [if_neg hkk, if_neg hkk, ih]

theorem lookupKey_addRow (acc : List (String × Customer)) (row : Row) (k : String) :
    lookupKey k (addRow acc row) =
      if emailKey row = some k then
        match lookupKey k acc with
        | some c => some { name := c.name, phone := c.phone, email := c.email,
                           items := c.items ++ [rowItem row] }
        | none => some { name := row.Name, phone := row.Phone, email := k,
                         items := [rowItem row] }
      else lookupKey k acc := by
  rw [addRow]
  cases he : emailKey row with
  | none =>
    dsimp only
    rw [if_neg (by simp)]
  | some email =>
    dsimp only
    by_cases hek : email = k
    · subst hek
      rw [if_pos rfl]
      cases hl : lookupKey email acc with
      | some c =>
        dsimp only
        rw [lookupKey_map_update acc email
          (fun c => { name := c.name, phone := c.phone, email := c.email,
                      items := c.items ++ [rowItem row] }) email]
        rw [if_pos rfl, hl]
        rfl
      | none =>
        dsimp only
        rw [lookupKey_append, hl, lookupKey_cons, if_pos rfl]
    · rw [if_neg fun hc => hek (Option.some_injective _ hc)]
      cases hl : lookupKey email acc with
      | some c =>
        dsimp only
        rw [lookupKey_map_update acc email
          (fun c => { name := c.name, phone := c.phone, email := c.email,
                      items := c.items ++ [rowItem row] }) k]
        rw [if_neg fun h => hek h.symm]
      | none =>
        dsimp only
        rw [lookupKey_append]
        cases hl2 : lookupKey k acc with
        | some v => rfl
        | none =>
          dsimp only
          rw [lookupKey_cons, if_neg hek]
          rfl

theorem addRow_keys_nodup (acc : List (String × Customer)) (row : Row)
    (hnd : (acc.map Prod.fst).Nodup) : ((addRow acc row).map Prod.fst).Nodup := by
  rw [addRow]
  cases he : emailKey row with
  | none => exact hnd
  | some email =>
    dsimp only
    cases hl : lookupKey email acc with
    | some c =>
      dsimp only
      have hkeys : ((acc.map fun p =>
          if p.1 = email then
            ((p.1, { name := p.2.name, phone := p.2.phone, email := p.2.email,
                     items := p.2.items ++ [rowItem row] }) : String × Customer)
          else p).map Prod.fst) = acc.map Prod.fst := by
        rw [List.map_map]
        exact List.map_congr_left fun p hp => by
          by_cases h : p.1 = email <;> simp [h]
      rw [hkeys]
      exact hnd
    | none =>
      dsimp only
      have hmem : email ∉ acc.map Prod.fst := (lookupKey_eq_none_iff _ _).mp hl
      rw [List.map_append]
      rw [List.nodup_append]
      refine ⟨hnd, by simp, ?_⟩
      intro a ha hb
      simp only [List.map_cons, List.map_nil, List.mem_singleton] at hb
      subst hb
      exact hmem ha

theorem foldl_addRow_keys_nodup (rows : List Row) :
    ∀ (acc : List (String × Customer)), (acc.map Prod.fst).Nodup →
      ((rows.foldl addRow acc).map Prod.fst).Nodup := by
  induction rows with
  | nil => intro acc h; exact h
  | cons row rest ih =>
    intro acc h
    rw [List.foldl_cons]
    exact ih (addRow acc row) (addRow_keys_nodup acc row h)

theorem foldl_addRow_origin (rows : List Row) :
    ∀ (acc : List (String × Customer)) (k : String) (c : Customer),
      lookupKey k (rows.foldl addRow acc) = some c →
      (∃ c0, lookupKey k acc = some c0 ∧ c.name = c0.name ∧ c.phone = c0.phone ∧
        c.email = c0.email) ∨
      (lookupKey k acc = none ∧
        ∃ r, rows.find? (fun row => emailKey row == some k) = some r ∧
          emailKey r = some k ∧ c.name = r.Name ∧ c.phone = r.Phone ∧ c.email = k) := by
  induction rows with
  | nil =>
    intro acc k c h
    exact Or.inl ⟨c, h, rfl, rfl, rfl⟩
  | cons row rest ih =>
    intro acc k c h
    rw [List.foldl_cons] at h
    rcases ih (addRow acc row) k c h with ⟨c0, hc0, hn, hp, he⟩ |
      ⟨hnone, r, hfind, hre, hn, hp, he⟩
    · rw [lookupKey_addRow] at hc0
      by_cases hrk : emailKey row = some k
      · rw [if_pos hrk] at hc0
        cases hl : lookupKey k acc with
        | some c1 =>
          rw [hl] at hc0
          cases hc0
          exact Or.inl ⟨c1, rfl, hn, hp, he⟩
        | none =>
          rw [hl] at hc0
          cases hc0
          refine Or.inr ⟨rfl, row, List.find?_cons_of_pos _ (by simp [hrk]), hrk, hn, hp, he⟩
      · rw [if_neg hrk] at hc0
        exact Or.inl ⟨c0, hc0, hn, hp, he⟩
    · have hrk : ¬ emailKey row = some k := by
        intro hcontra
        rw [lookupKey_addRow, if_pos hcontra] at hnone
        cases hl : lookupKey k acc with
        | some c1 => rw [hl] at hnone; exact Option.noConfusion hnone
        | none => rw [hl] at hnone; exact Option.noConfusion hnone
      have hacc : lookupKey k acc = none := by
        rw [lookupKey_addRow, if_neg hrk] at hnone
        exact hnone
      refine Or.inr ⟨hacc, r, ?_, hre, hn, hp, he⟩
      rw [List.find?_cons_of_neg _ (by simp [hrk])]
      exact hfind

/-- C9: the customer record `groupByEmail` produces for an email carries
the `Name` and `Phone` of the first row bearing that (lower-cased,
non-empty) email; later rows with the same email never change the
stored name, phone or email. -/
theorem C9_groupByEmail_first_row_identity :
    ∀ (rows : List Row) (c : Customer), c ∈ groupByEmail rows →
      ∃ r, rows.find? (fun row => emailKey row == some c.email) = some r ∧
        emailKey r = some c.email ∧ c.name = r.Name ∧ c.phone = r.Phone := by
  intro rows c hc
  rw [groupByEmail] at hc
  obtain ⟨p, hp, hpc⟩ := List.mem_map.mp hc
  obtain ⟨k, c'⟩ := p
  simp only at hpc
  rw [hpc] at hp
  have hnd : ((rows.foldl addRow []).map Prod.fst).Nodup :=
    foldl_addRow_keys_nodup rows [] (by simp)
  have hlk : lookupKey k (rows.foldl addRow []) = some c :=
    lookupKey_eq_some_of_mem_nodup hnd hp
  rcases foldl_addRow_origin rows [] k c hlk with ⟨c0, hc0, _⟩ |
    ⟨_, r, hfind, hre, hn, hph, he⟩
  · exact absurd hc0 (by simp)
  · subst he
    exact ⟨r, hfind, hre, hn, hph⟩

/-- Witness for C9: two rows whose emails agree up to case; the grouped
customer keeps the first row's name and phone. -/
theorem C9_groupByEmail_first_row_identity_witness :
    ∃ r, List.find? (fun row => emailKey row == some "ab") [aliceRow, bobRow] = some r ∧
      emailKey r = some "ab" ∧
      ("Alice" : String) = r.Name ∧ ("111" : String) = r.Phone :=
  C9_groupByEmail_first_row_identity [aliceRow, bobRow]
    { name := "Alice", phone := "111", email := "ab",
      items := [rowItem aliceRow, rowItem bobRow] }
    (by
      simp [groupByEmail, addRow, emailKey, lookupKey, rowItem,
        aliceRow, bobRow, String.toLower, String.map_eq])

end Patagonia
